import Mathlib

/-!
Shallow embedding of the interactive image-hotspot editor (`src/main.ts`) of
obsidian-image-folder, together with theorems checking the specification's
claims about it.

Coordinates are percentages of the background image's bounding box.  The
JavaScript source computes with IEEE doubles; the geometry kernel and the
editor state (centroid, smooth path, undo stack, vertex drags, translation)
is embedded over `ℚ`, while the drawing-commit pipeline, whose ellipse seed
uses `Math.cos`/`Math.sin`, is embedded over `ℝ`.
-/

namespace ImageFolder

/-- A 2D point in percentage coordinates (geometry kernel / store side). -/
abbrev Point : Type := ℚ × ℚ

/-- A 2D point over `ℝ` (drawing-commit pipeline side, needed for `cos`/`sin`). -/
abbrev RPoint : Type := ℝ × ℝ

/-- `Math.max(0, Math.min(100, v))`, the clamp applied at every
pixel→percentage conversion point (`main.ts` lines 378-379, 416-417, 638-639). -/
def clamp100 (v : ℚ) : ℚ := max 0 (min 100 v)

/-- The same clamp over `ℝ` for the drawing pipeline. -/
noncomputable def clamp100R (v : ℝ) : ℝ := max 0 (min 100 v)

/-- `centroid` (`main.ts` lines 87-93): average of all points,
`[50, 50]` for an empty list. -/
def centroid (points : List Point) : Point :=
  let n := points.length
  if n = 0 then (50, 50)
  else
    let sumX := points.foldl (fun s p => s + p.1) 0
    let sumY := points.foldl (fun s p => s + p.2) 0
    (sumX / (n : ℚ), sumY / (n : ℚ))

/-- One SVG path command, the AST behind the path string built by
`smoothClosedPath` (`main.ts` lines 59-84): `M`, `L`, `C`, `Z`. -/
inductive PathCmd : Type
  | moveTo (p : Point)
  | lineTo (p : Point)
  | curveTo (c1 c2 p : Point)
  | closePath
deriving DecidableEq, Repr

/-- The body of the cubic-segment loop of `smoothClosedPath`
(`main.ts` lines 67-81): the Catmull-Rom-to-Bezier conversion with tension
`0.35` over the cyclic neighbours (previous, current, next, next-next) of
index `i`.  (For the loop range `0 ≤ i < n` the source's index
`(i - 1 + n) % n` equals `(i + n - 1) % n` used here, since the JavaScript
subtraction is over actual integers.) -/
def smoothSeg (points : List Point) (i : ℕ) : PathCmd :=
  let n := points.length
  let tension : ℚ := 35 / 100
  let p0 := points.getD ((i + n - 1) % n) (0, 0)
  let p1 := points.getD i (0, 0)
  let p2 := points.getD ((i + 1) % n) (0, 0)
  let p3 := points.getD ((i + 2) % n) (0, 0)
  let cp1 : Point := (p1.1 + (p2.1 - p0.1) * tension, p1.2 + (p2.2 - p0.2) * tension)
  let cp2 : Point := (p2.1 - (p3.1 - p1.1) * tension, p2.2 - (p3.2 - p1.2) * tension)
  PathCmd.curveTo cp1 cp2 p2

/-- `smoothClosedPath` (`main.ts` lines 59-84) as a command list.  For fewer
than 3 points it emits `M p0 L p1 ... Z`; otherwise `M p0`, one cubic
segment (`smoothSeg`) per point, then `Z`. -/
def smoothClosedPath (points : List Point) : List PathCmd :=
  let n := points.length
  if n < 3 then
    (points.enum.map (fun ip =>
      if ip.1 = 0 then PathCmd.moveTo ip.2 else PathCmd.lineTo ip.2))
      ++ [PathCmd.closePath]
  else
    PathCmd.moveTo (points.getD 0 (0, 0)) ::
      ((List.range n).map (smoothSeg points) ++ [PathCmd.closePath])

/-- Interpreter state for a path command list: the current point and the
start point of the current subpath (what `Z` closes back to). -/
structure PathState : Type where
  current : Point
  subStart : Point
deriving DecidableEq, Repr

/-- SVG path-command semantics: `M` resets both points, `L`/`C` move the
current point, `Z` returns the current point to the subpath start. -/
def stepCmd (s : PathState) (c : PathCmd) : PathState :=
  match c with
  | PathCmd.moveTo p => ⟨p, p⟩
  | PathCmd.lineTo p => ⟨p, s.subStart⟩
  | PathCmd.curveTo _ _ p => ⟨p, s.subStart⟩
  | PathCmd.closePath => ⟨s.subStart, s.subStart⟩

/-- The point the pen rests on after executing a whole path. -/
def finalPoint (cmds : List PathCmd) : Point :=
  (cmds.foldl stepCmd ⟨(0, 0), (0, 0)⟩).current

/-- The endpoint of a drawn segment command (`L` or `C`), if any. -/
def segEnd (c : PathCmd) : Option Point :=
  match c with
  | PathCmd.lineTo p => some p
  | PathCmd.curveTo _ _ p => some p
  | _ => none

/-- The endpoint of the last drawn segment of a path. -/
def lastSegEnd (cmds : List PathCmd) : Option Point :=
  (cmds.filterMap segEnd).getLast?

/-- The shape-tool kinds (`main.ts` line 27 / 104). -/
inductive ShapeType : Type
  | rect
  | ellipse
  | triangle
deriving DecidableEq, Repr

/-- A freshly drawn hotspot on the drawing-pipeline (`ℝ`) side
(`main.ts` lines 468-474): created with empty name and path. -/
structure HotspotR : Type where
  id : String
  name : String
  path : String
  points : List RPoint
  shapeType : ShapeType

/-- The rectangle seed of `onDrawUp` (`main.ts` lines 419-437) as a function
of the two drag corner points: min/max normalization followed by the four
corners top-left, top-right, bottom-right, bottom-left. -/
noncomputable def dragRectSeed (sx sy ex ey : ℝ) : List RPoint :=
  let minX := min sx ex
  let minY := min sy ey
  let maxX := max sx ex
  let maxY := max sy ey
  [(minX, minY), (maxX, minY), (maxX, maxY), (minX, maxY)]

/-- The ellipse seed of `onDrawUp` (`main.ts` lines 419-424, 439-453) as a
function of the two drag corner points: 8 control points around the ellipse
inscribed in the normalized drag rectangle. -/
noncomputable def dragEllipseSeed (sx sy ex ey : ℝ) : List RPoint :=
  let minX := min sx ex
  let minY := min sy ey
  let maxX := max sx ex
  let maxY := max sy ey
  let w := maxX - minX
  let h := maxY - minY
  let cx := minX + w / 2
  let cy := minY + h / 2
  let rx := w / 2
  let ry := h / 2
  (List.range 8).map (fun i =>
    (cx + rx * Real.cos ((2 * Real.pi * (i : ℝ)) / 8),
     cy + ry * Real.sin ((2 * Real.pi * (i : ℝ)) / 8)))

/-- The triangle seed of `onDrawUp` (`main.ts` lines 419-424, 454-461):
top-center, bottom-left, bottom-right of the normalized drag rectangle. -/
noncomputable def dragTriangleSeed (sx sy ex ey : ℝ) : List RPoint :=
  let minX := min sx ex
  let minY := min sy ey
  let maxX := max sx ex
  let maxY := max sy ey
  let w := maxX - minX
  [(minX + w / 2, minY), (minX, maxY), (maxX, maxY)]

/-- The point of the parametric ellipse with center `(cx, cy)` and
half-extents `(rx, ry)` at angle `θ` (the specification's description of the
ellipse seed). -/
noncomputable def ellipsePoint (cx cy rx ry θ : ℝ) : RPoint :=
  (cx + rx * Real.cos θ, cy + ry * Real.sin θ)

/-- `onDrawUp` (`main.ts` lines 410-482), the drawing-gesture commit:
the release position (already converted to percentage units, `pointerX/Y`)
is clamped, the drag rectangle is normalized, degenerate drags
(both extents `< 2`) are discarded, otherwise seed points for the armed
shape are built and exactly one new hotspot is appended. -/
noncomputable def onDrawUp (shapeType : ShapeType) (newId : String)
    (drawStartX drawStartY pointerX pointerY : ℝ)
    (hotspots : List HotspotR) : List HotspotR :=
  let curX := clamp100R pointerX
  let curY := clamp100R pointerY
  let minX := min drawStartX curX
  let minY := min drawStartY curY
  let maxX := max drawStartX curX
  let maxY := max drawStartY curY
  let w := maxX - minX
  let h := maxY - minY
  if w < 2 ∧ h < 2 then hotspots
  else
    let points : List RPoint :=
      match shapeType with
      | ShapeType.rect => [(minX, minY), (maxX, minY), (maxX, maxY), (minX, maxY)]
      | ShapeType.ellipse =>
        let cx := minX + w / 2
        let cy := minY + h / 2
        let rx := w / 2
        let ry := h / 2
        (List.range 8).map (fun i =>
          (cx + rx * Real.cos ((2 * Real.pi * (i : ℝ)) / 8),
           cy + ry * Real.sin ((2 * Real.pi * (i : ℝ)) / 8)))
      | ShapeType.triangle => [(minX + w / 2, minY), (minX, maxY), (maxX, maxY)]
    hotspots ++ [{ id := newId, name := "", path := "", points := points,
                   shapeType := shapeType }]

/-- An edge-editing session on a hotspot: the hotspot's current vertex list
and the undo stack of vertex-list snapshots (`this.undoStack`,
`main.ts` line 108; the JavaScript array's end is the top of the stack). -/
structure EdgeEditSession : Type where
  points : List Point
  undoStack : List (List Point)
deriving DecidableEq, Repr

/-- Session right after a drawn shape is committed (`main.ts` line 479):
the undo stack holds the single creation snapshot. -/
def startEdgeEditAfterDraw (pts : List Point) : EdgeEditSession :=
  ⟨pts, [pts]⟩

/-- Undo stack set when edge editing is entered from the context menu
(`main.ts` line 775): one snapshot of the hotspot's points, or empty when
the hotspot has no points (legacy hotspot, which then shows no handles). -/
def enterEdgeEditStack (points : Option (List Point)) : List (List Point) :=
  match points with
  | some pts => [pts]
  | none => []

/-- Snapshot push at a vertex-drag start (`main.ts` line 632) or a
whole-shape-drag start (`main.ts` line 720): the pre-mutation vertex list is
pushed onto the stack. -/
def dragStartPush (s : EdgeEditSession) : EdgeEditSession :=
  { s with undoStack := s.undoStack ++ [s.points] }

/-- Net effect of the mouse-move handlers of a drag on the vertex list
(`main.ts` lines 634-659 and 726-736): the points are replaced, the stack is
untouched. -/
def dragSetPoints (s : EdgeEditSession) (pts : List Point) : EdgeEditSession :=
  { s with points := pts }

/-- One complete drag gesture: snapshot push at the drag start, then the
vertex mutations of the drag. -/
def dragGesture (s : EdgeEditSession) (pts : List Point) : EdgeEditSession :=
  dragSetPoints (dragStartPush s) pts

/-- A sequence of drag gestures. -/
def runGestures (s : EdgeEditSession) (gs : List (List Point)) : EdgeEditSession :=
  gs.foldl dragGesture s

/-- The Ctrl+Z branch of `edgeEditKeyHandler` (`main.ts` lines 495-505):
if more than one snapshot remains, pop the current one and restore the one
now on top; otherwise do nothing and notify "Nothing to undo".  The returned
`Bool` is `true` exactly when an undo happened. -/
def undoEdgeEdit (s : EdgeEditSession) : EdgeEditSession × Bool :=
  if 1 < s.undoStack.length then
    let popped := s.undoStack.dropLast
    ({ points := popped.getLastD [], undoStack := popped }, true)
  else (s, false)

/-- A vertex drag update (`onHandleMove`, `main.ts` lines 634-644): the
dragged vertex is replaced by the clamped pointer position. -/
def onHandleMove (pts : List Point) (idx : ℕ) (nx ny : ℚ) : List Point :=
  pts.set idx (clamp100 nx, clamp100 ny)

/-- The whole-shape translation drag (`onMove` inside `shape.onmousedown`,
`main.ts` lines 726-736): every original point is shifted by the pointer
delta `(dx, dy)` with no clamping. -/
def translateShapePoints (origPts : List Point) (dx dy : ℚ) : List Point :=
  origPts.map (fun p => (p.1 + dx, p.2 + dy))

/-- A coordinate within the normalized space. -/
def inB (x : ℚ) : Prop := 0 ≤ x ∧ x ≤ 100

/-- A point whose coordinates both lie in `[0, 100]`. -/
def pointInB (p : Point) : Prop := inB p.1 ∧ inB p.2

instance : DecidablePred inB := fun x => by unfold inB; infer_instance

instance : DecidablePred pointInB := fun p => by unfold pointInB; infer_instance

/-- A real coordinate within the normalized space. -/
def inBR (x : ℝ) : Prop := 0 ≤ x ∧ x ≤ 100

/-- A real point whose coordinates both lie in `[0, 100]`. -/
def pointInBR (p : RPoint) : Prop := inBR p.1 ∧ inBR p.2

/-- The per-view editor state of `LoomView` that drives pointer-input
interpretation (`main.ts` lines 99-107). -/
structure EditorState : Type where
  isEditMode : Bool
  selectedHotspotId : Option String
  drawingShapeType : Option ShapeType
  editingEdgesHotspotId : Option String
deriving DecidableEq, Repr

/-- `editModeBtn.onclick` (`main.ts` lines 165-175): when leaving edit mode
the settings are saved; the flag is toggled and the selected hotspot and the
armed drawing tool are cleared.  The returned `Bool` records whether the
store was persisted (`saveSettings` ran). -/
def editModeToggle (s : EditorState) : EditorState × Bool :=
  ({ isEditMode := !s.isEditMode
   , selectedHotspotId := none
   , drawingShapeType := none
   , editingEdgesHotspotId := s.editingEdgesHotspotId }, s.isEditMode)

/-- Whether `renderRoom` shows the edge-editing affordances (vertex handles,
confirm/cancel buttons, whole-shape drag) for a hotspot: `main.ts` line 552
computes `isEdgeEditing` from `editingEdgesHotspotId` alone, and line 613
guards the affordances only by `isEdgeEditing && hotspot.points` — not by
`isEditMode`.  `hasPointsField` is JavaScript truthiness of
`hotspot.points` (the field is present). -/
def edgeEditAffordanceShown (s : EditorState) (hotspotId : String)
    (hasPointsField : Bool) : Bool :=
  (s.editingEdgesHotspotId == some hotspotId) && hasPointsField

/-- The label display style (`displayLabelType`, `main.ts` line 39). -/
inductive LabelType : Type
  | name
  | path
  | both
deriving DecidableEq, Repr

/-- A persisted hotspot (`interface Hotspot`, `main.ts` lines 15-28): the
legacy rectangle fields and the polygon fields are all optional. -/
structure HotspotS : Type where
  id : String
  name : String
  path : String
  top : Option String
  left : Option String
  width : Option String
  height : Option String
  points : Option (List Point)
  shapeType : Option ShapeType
deriving DecidableEq, Repr

/-- A profile (`interface Profile`, `main.ts` lines 30-35). -/
structure ProfileS : Type where
  id : String
  name : String
  imagePath : String
  hotspots : List HotspotS
deriving DecidableEq, Repr

/-- The plugin settings (`interface LoomViewSettings`, `main.ts` lines 37-48):
`roomImagePath` and `hotspots` are deprecated fields kept for migration. -/
structure SettingsS : Type where
  displayLabelType : LabelType
  roomImagePath : Option String
  hotspots : Option (List HotspotS)
  profiles : List ProfileS
  activeProfileId : String
deriving DecidableEq, Repr

/-- The raw object returned by `loadData()`: every key may be absent
(`none`). -/
structure StoredData : Type where
  displayLabelType : Option LabelType
  roomImagePath : Option String
  hotspots : Option (List HotspotS)
  profiles : Option (List ProfileS)
  activeProfileId : Option String
deriving DecidableEq, Repr

/-- `loadSettings` (`main.ts` lines 1378-1380):
`Object.assign({}, DEFAULT_SETTINGS, loadData())` — each key present in the
stored data wins over the default (`displayLabelType: "path"`,
`profiles: []`, `activeProfileId: ""`; the deprecated keys have no default).
No hotspot is inspected, filtered or dropped. -/
def loadSettings (d : StoredData) : SettingsS :=
  { displayLabelType := d.displayLabelType.getD LabelType.path
  , roomImagePath := d.roomImagePath
  , hotspots := d.hotspots
  , profiles := d.profiles.getD []
  , activeProfileId := d.activeProfileId.getD "" }

/-- JavaScript `a || d` on an optional string field: the default replaces a
missing or empty (falsy) string. -/
def jsOr (o : Option String) (d : String) : String :=
  match o with
  | some s => if s = "" then d else s
  | none => d

/-- The shape `renderRoom` emits for a hotspot, if any. -/
inductive RenderedShape : Type
  | smoothPath (d : List PathCmd)
  | polygon (pts : List Point)
  | rect (x y w h : String)
deriving DecidableEq, Repr

/-- The legacy-rectangle branch of `renderRoom` (`main.ts` lines 538-547),
entered when `hotspot.top` is truthy: an SVG `rect` from the parsed legacy
fields (parsing of the numeric strings is left to the host's `parseFloat`,
so the raw strings are carried here). -/
def renderLegacyRect (h : HotspotS) : Option RenderedShape :=
  match h.top with
  | some t =>
    if t = "" then none
    else some (RenderedShape.rect (jsOr h.left "0") t (jsOr h.width "10") (jsOr h.height "10"))
  | none => none

/-- The shape-selection logic of `renderRoom` (`main.ts` lines 524-550):
a hotspot with a nonempty `points` array renders as a smooth path (ellipse)
or polygon; otherwise a truthy `top` renders the legacy rectangle; otherwise
the hotspot is skipped (`return`), i.e. it renders nothing. -/
def renderShape (h : HotspotS) : Option RenderedShape :=
  match h.points with
  | some ps =>
    if 0 < ps.length then
      if h.shapeType = some ShapeType.ellipse then
        some (RenderedShape.smoothPath (smoothClosedPath ps))
      else some (RenderedShape.polygon ps)
    else renderLegacyRect h
  | none => renderLegacyRect h

/-- JavaScript truthiness of `hotspot.points && hotspot.points.length > 0`. -/
def hasRenderablePoints (h : HotspotS) : Bool :=
  match h.points with
  | some ps => 0 < ps.length
  | none => false

/-- JavaScript truthiness of `hotspot.top`. -/
def hotspotTruthyTop (h : HotspotS) : Bool :=
  match h.top with
  | some t => t ≠ ""
  | none => false

/-- JavaScript's `String.prototype.trim`, modelled structurally (the core
`String.trim` does not reduce in the kernel): strips leading and trailing
whitespace characters. -/
def jsTrim (s : String) : String :=
  String.mk (((s.data.dropWhile Char.isWhitespace).reverse.dropWhile
    Char.isWhitespace).reverse)

/-- JavaScript's `path.includes("#")`, modelled structurally. -/
def jsContainsHash (s : String) : Bool :=
  s.data.contains '#'

/-- JavaScript's `String.prototype.endsWith`, modelled structurally. -/
def jsEndsWith (s suffix : String) : Bool :=
  suffix.data.isSuffixOf s.data

/-- A vault entry: Obsidian's `TFile` or `TFolder`. -/
inductive VEntry : Type
  | file
  | folder
deriving DecidableEq, Repr

/-- The user-visible outcome of clicking a hotspot in view mode. -/
inductive NavResult : Type
  | noLinkedFolder (name : String)
  | openedFile (path : String) (subpath : String)
  | showedFolder (path : String)
  | pathNotFound (path : String)
deriving DecidableEq, Repr

/-- `showZoneFiles` on a first click (`currentPath = null`,
`main.ts` lines 885-975), up to the navigation outcome.  The vault is the
collaborator lookup `getAbstractFileByPath`.  An empty (or blank) path
reports "no linked folder"; a `#fragment` is split off before resolution;
an unresolved path not already ending in `.md` is retried with `.md`
appended; a resolved file is opened (with the fragment as sub-path); then
the original path is looked up as a folder, and failing that the path is
reported as not found. -/
def showZoneFiles (vault : String → Option VEntry)
    (hotspotName hotspotPath : String) : NavResult :=
  let path := hotspotPath
  if jsTrim path = "" then NavResult.noLinkedFolder hotspotName
  else
    let split : String × String :=
      if jsContainsHash path then
        let parts := path.splitOn "#"
        (parts.headD "", "#" ++ parts.getD 1 "")
      else (path, "")
    let path := split.1
    let linkSubpath := split.2
    let abstractFile : Option (String × VEntry) :=
      match vault path with
      | some e => some (path, e)
      | none =>
        if jsEndsWith path ".md" then none
        else
          match vault (path ++ ".md") with
          | some e => some (path ++ ".md", e)
          | none => none
    match abstractFile with
    | some (p, VEntry.file) => NavResult.openedFile p linkSubpath
    | _ =>
      match vault path with
      | some VEntry.folder => NavResult.showedFolder path
      | _ => NavResult.pathNotFound path

/-- A persisted hotspot with neither polygon points nor legacy rectangle
fields (the specification calls such a hotspot corrupt). -/
def corruptHotspot : HotspotS :=
  { id := "h-corrupt", name := "X", path := "p"
  , top := none, left := none, width := none, height := none
  , points := none, shapeType := none }

/-- A profile holding only `corruptHotspot`. -/
def corruptProfile : ProfileS :=
  { id := "p1", name := "P", imagePath := "img.png", hotspots := [corruptHotspot] }

/-- Stored data whose only profile holds only `corruptHotspot`. -/
def corruptStored : StoredData :=
  { displayLabelType := none, roomImagePath := none, hotspots := none
  , profiles := some [corruptProfile], activeProfileId := none }

/-- A concrete vault for evaluating the navigation model: it contains the
single file `notes/desk.md`. -/
def mdVault : String → Option VEntry :=
  fun p => if p = "notes/desk.md" then some VEntry.file else none

end ImageFolder

namespace ImageFolder

/- ## Helper lemmas -/

theorem foldl_add_eq_sum {α : Type} (f : α → ℚ) (l : List α) (a : ℚ) :
    l.foldl (fun s p => s + f p) a = a + (l.map f).sum := by
  induction l generalizing a with
  | nil => simp
  | cons x xs ih =>
    rw [List.foldl_cons, ih, List.map_cons, List.sum_cons]
    ring

theorem clamp100_inB (v : ℚ) : inB (clamp100 v) :=
  ⟨le_max_left 0 _, max_le (by norm_num) (min_le_left _ _)⟩

theorem inBR_min {a b : ℝ} (ha : inBR a) (hb : inBR b) : inBR (min a b) :=
  ⟨le_min ha.1 hb.1, (min_le_left _ _).trans ha.2⟩

theorem inBR_max {a b : ℝ} (ha : inBR a) (hb : inBR b) : inBR (max a b) :=
  ⟨ha.1.trans (le_max_left _ _), max_le ha.2 hb.2⟩

/- ## C7 — centroid is the componentwise mean, (50, 50) on the empty list -/

/-- C7: for the empty vertex list `centroid` returns `(50, 50)`; for every
non-empty vertex list it returns the componentwise arithmetic mean of the
vertices. -/
theorem centroid_spec (pts : List Point) :
    (pts = [] → centroid pts = (50, 50)) ∧
    (pts ≠ [] → centroid pts =
      ((pts.map Prod.fst).sum / (pts.length : ℚ),
       (pts.map Prod.snd).sum / (pts.length : ℚ))) := by
  constructor
  · rintro rfl; rfl
  · intro h
    have hl : pts.length ≠ 0 := by simpa [List.length_eq_zero] using h
    simp only [centroid]
    rw [if_neg hl, foldl_add_eq_sum, foldl_add_eq_sum, zero_add, zero_add]

/-- Witness for C7 at a concrete two-vertex list. -/
theorem centroid_spec_witness :
    centroid [((0 : ℚ), 0), (30, 60)] =
      ((([((0 : ℚ), 0), (30, 60)]).map Prod.fst).sum / (([((0 : ℚ), 0), (30, 60)]).length : ℚ),
       (([((0 : ℚ), 0), (30, 60)]).map Prod.snd).sum / (([((0 : ℚ), 0), (30, 60)]).length : ℚ)) :=
  (centroid_spec [((0 : ℚ), 0), (30, 60)]).2 (by decide)

/- ## C5 — rectangle seed: 4 corners, drag-direction independent -/

/-- C5: for every pair of drag corner points the rectangle seed yields
exactly 4 vertices, equal to the corners
`[(minX,minY), (maxX,minY), (maxX,maxY), (minX,maxY)]` of the normalized
drag rectangle (clockwise from top-left), and swapping start and end yields
the identical vertex list. -/
theorem dragRectSeed_corners (sx sy ex ey : ℝ) :
    (dragRectSeed sx sy ex ey).length = 4 ∧
    dragRectSeed sx sy ex ey =
      [(min sx ex, min sy ey), (max sx ex, min sy ey),
       (max sx ex, max sy ey), (min sx ex, max sy ey)] ∧
    dragRectSeed ex ey sx sy = dragRectSeed sx sy ex ey := by
  refine ⟨rfl, rfl, ?_⟩
  unfold dragRectSeed
  rw [min_comm ex sx, min_comm ey sy, max_comm ex sx, max_comm ey sy]

/- ## C6 — ellipse seed: 8 points of the inscribed parametric ellipse -/

/-- C6: for every normalized drag rectangle the ellipse seed yields exactly
8 vertices, and vertex `i` is the point of the inscribed parametric ellipse
(center = rectangle center, half-extents = rectangle half-extents) at angle
`2π·i/8`. -/
theorem dragEllipseSeed_param (sx sy ex ey : ℝ) :
    (dragEllipseSeed sx sy ex ey).length = 8 ∧
    dragEllipseSeed sx sy ex ey =
      (List.range 8).map (fun i =>
        ellipsePoint
          (min sx ex + (max sx ex - min sx ex) / 2)
          (min sy ey + (max sy ey - min sy ey) / 2)
          ((max sx ex - min sx ex) / 2)
          ((max sy ey - min sy ey) / 2)
          ((2 * Real.pi * (i : ℝ)) / 8)) := by
  refine ⟨rfl, rfl⟩

/- ## C2 — toggling edit mode off: store persisted, but edge editing survives -/

/-- C2 (refuting evaluation at the failing input): with edit mode on and a
hotspot `"h1"` in edge editing, clicking the edit-mode toggle persists the
store and clears the edit flag, the selection and the armed tool — but
`editingEdgesHotspotId` is not cleared, and `renderRoom` still shows the
edge-editing affordances (vertex handles, confirm/cancel buttons,
whole-shape drag) for `"h1"` even though `isEditMode` is now `false`. -/
theorem editModeToggle_leaves_edge_editing :
    (editModeToggle ⟨true, some "h1", none, some "h1"⟩).2 = true ∧
    (editModeToggle ⟨true, some "h1", none, some "h1"⟩).1.isEditMode = false ∧
    (editModeToggle ⟨true, some "h1", none, some "h1"⟩).1.editingEdgesHotspotId = some "h1" ∧
    edgeEditAffordanceShown (editModeToggle ⟨true, some "h1", none, some "h1"⟩).1 "h1" true
      = true := by
  decide

/- ## C9 — corrupt hotspots are not dropped on load, only skipped at render -/

/-- C9 (counterexample): loading stored data whose only profile holds a
hotspot with neither points nor legacy rectangle fields keeps that hotspot
in the loaded store — `loadSettings` drops nothing. -/
theorem loadSettings_keeps_corrupt_hotspot :
    (loadSettings corruptStored).profiles = [corruptProfile] ∧
    corruptProfile.hotspots = [corruptHotspot] ∧
    corruptHotspot.points = none ∧
    corruptHotspot.top = none := by
  exact ⟨rfl, rfl, rfl, rfl⟩

/-- C9 (amended): on load, profiles (and so all hotspots) pass through
unchanged — no hotspot is ever dropped; instead, a hotspot renders nothing
exactly when it has neither a nonempty `points` array nor a truthy legacy
`top` field. -/
theorem loadSettings_no_drop_render_skip :
    (∀ d : StoredData, (loadSettings d).profiles = d.profiles.getD []) ∧
    (∀ h : HotspotS, renderShape h = none ↔
      (hasRenderablePoints h = false ∧ hotspotTruthyTop h = false)) := by
  constructor
  · intro d; rfl
  · intro h
    rcases hp : h.points with _ | ps
    · rcases ht : h.top with _ | t
      · simp [renderShape, renderLegacyRect, hasRenderablePoints, hotspotTruthyTop, hp, ht]
      · by_cases hte : t = "" <;>
          simp [renderShape, renderLegacyRect, hasRenderablePoints, hotspotTruthyTop, hp, ht, hte]
    · by_cases hl : 0 < ps.length
      · by_cases hs : h.shapeType = some ShapeType.ellipse <;>
          simp [renderShape, renderLegacyRect, hasRenderablePoints, hotspotTruthyTop, hp, hl, hs]
      · have hps : ps = [] := by
          cases ps with
          | nil => rfl
          | cons q qs => simp at hl
        subst hps
        rcases ht : h.top with _ | t
        · simp [renderShape, renderLegacyRect, hasRenderablePoints, hotspotTruthyTop, hp, ht]
        · by_cases hte : t = "" <;>
            simp [renderShape, renderLegacyRect, hasRenderablePoints, hotspotTruthyTop, hp, ht, hte]

/- ## C1 — the undo stack of an edge-editing session -/

theorem dragGesture_stack_len (s : EdgeEditSession) (g : List Point) :
    (dragGesture s g).undoStack.length = s.undoStack.length + 1 := by
  simp [dragGesture, dragSetPoints, dragStartPush]

theorem runGestures_stack_len (gs : List (List Point)) :
    ∀ s : EdgeEditSession,
      (runGestures s gs).undoStack.length = s.undoStack.length + gs.length := by
  induction gs with
  | nil => intro s; rfl
  | cons g gs ih =>
    intro s
    have hstep : runGestures s (g :: gs) = runGestures (dragGesture s g) gs := rfl
    rw [hstep, ih, dragGesture_stack_len]
    simp only [List.length_cons]
    omega

/-- C1: right after a hotspot is created (or edge editing is entered on a
hotspot with points) the undo stack holds exactly the creation snapshot;
after `N` drag gestures it holds `N + 1` snapshots; an undo with more than
one snapshot pops the top and restores the vertex list to the snapshot now
on top; an undo with only one snapshot left changes nothing (and reports
"Nothing to undo"). -/
theorem undoStack_spec :
    (∀ pts : List Point, (startEdgeEditAfterDraw pts).undoStack = [pts]) ∧
    (∀ pts : List Point, enterEdgeEditStack (some pts) = [pts]) ∧
    (∀ (pts : List Point) (gs : List (List Point)),
      (runGestures (startEdgeEditAfterDraw pts) gs).undoStack.length = gs.length + 1) ∧
    (∀ s : EdgeEditSession, 1 < s.undoStack.length →
      (undoEdgeEdit s).1.undoStack = s.undoStack.dropLast ∧
      (undoEdgeEdit s).1.points = s.undoStack.dropLast.getLastD [] ∧
      (undoEdgeEdit s).2 = true) ∧
    (∀ s : EdgeEditSession, s.undoStack.length ≤ 1 → undoEdgeEdit s = (s, false)) := by
  refine ⟨fun pts => rfl, fun pts => rfl, ?_, ?_, ?_⟩
  · intro pts gs
    rw [runGestures_stack_len]
    have h1 : (startEdgeEditAfterDraw pts).undoStack.length = 1 := rfl
    omega
  · intro s h
    unfold undoEdgeEdit
    rw [if_pos h]
    exact ⟨rfl, rfl, rfl⟩
  · intro s h
    unfold undoEdgeEdit
    rw [if_neg (by omega)]

/-- Witness for C1: a concrete session with two snapshots undoes to the
creation snapshot, a session with one snapshot is left unchanged, and two
gestures after creation give a stack of three snapshots. -/
theorem undoStack_spec_witness :
    (undoEdgeEdit ⟨[(5, 5)], [[(0, 0)], [(5, 5)]]⟩).1.undoStack = [[(0, 0)]] ∧
    (undoEdgeEdit ⟨[(5, 5)], [[(0, 0)], [(5, 5)]]⟩).1.points = [(0, 0)] ∧
    (undoEdgeEdit ⟨[(5, 5)], [[(0, 0)], [(5, 5)]]⟩).2 = true ∧
    undoEdgeEdit ⟨[(0, 0)], [[(0, 0)]]⟩ = (⟨[(0, 0)], [[(0, 0)]]⟩, false) ∧
    (runGestures (startEdgeEditAfterDraw [(1, 1)]) [[(2, 2)], [(3, 3)]]).undoStack.length
      = 3 := by
  have h := undoStack_spec
  refine ⟨?_, ?_, ?_, ?_, ?_⟩
  · exact (h.2.2.2.1 ⟨[(5, 5)], [[(0, 0)], [(5, 5)]]⟩ (by decide)).1
  · exact (h.2.2.2.1 ⟨[(5, 5)], [[(0, 0)], [(5, 5)]]⟩ (by decide)).2.1
  · exact (h.2.2.2.1 ⟨[(5, 5)], [[(0, 0)], [(5, 5)]]⟩ (by decide)).2.2
  · exact h.2.2.2.2 ⟨[(0, 0)], [[(0, 0)]]⟩ (by decide)
  · exact h.2.2.1 [(1, 1)] [[(2, 2)], [(3, 3)]]

/- ## C8 — smoothClosedPath produces a closed path -/

theorem foldl_stepCmd_subStart (cmds : List PathCmd) :
    ∀ s : PathState, (∀ c ∈ cmds, ∀ p, c ≠ PathCmd.moveTo p) →
      (cmds.foldl stepCmd s).subStart = s.subStart := by
  induction cmds with
  | nil => intro s _; rfl
  | cons c cs ih =>
    intro s h
    rw [List.foldl_cons]
    have hstep : (stepCmd s c).subStart = s.subStart := by
      cases c with
      | moveTo p => exact absurd rfl (h (PathCmd.moveTo p) (by simp) p)
      | lineTo p => rfl
      | curveTo c1 c2 p => rfl
      | closePath => rfl
    rw [ih (stepCmd s c) (fun c' hc' => h c' (by simp [hc']))]
    exact hstep

theorem filterMap_eq_map_of_all_some {α β : Type} (g : α → Option β) (f : α → β)
    (l : List α) (h : ∀ x ∈ l, g x = some (f x)) : l.filterMap g = l.map f := by
  induction l with
  | nil => rfl
  | cons x xs ih =>
    rw [List.filterMap_cons, h x (by simp), List.map_cons,
      ih (fun y hy => h y (by simp [hy]))]

theorem getLast?_map_range {β : Type} (f : ℕ → β) (n : ℕ) (hn : n ≠ 0) :
    ((List.range n).map f).getLast? = some (f (n - 1)) := by
  cases n with
  | zero => exact absurd rfl hn
  | succ m =>
    rw [List.range_succ, List.map_append, List.map_cons, List.map_nil, List.getLast?_concat]
    simp

theorem smoothSeg_ne_moveTo (points : List Point) (i : ℕ) (p : Point) :
    smoothSeg points i ≠ PathCmd.moveTo p := by
  simp [smoothSeg]

theorem smoothSeg_segEnd (points : List Point) (i : ℕ) :
    segEnd (smoothSeg points i) =
      some (points.getD ((i + 1) % points.length) (0, 0)) := by
  simp [smoothSeg, segEnd]

/-- C8: for every nonempty vertex list the produced path ends with a close
command and, under SVG path semantics, its final point coincides with its
initial move-to point; for length ≥ 3 the last cubic segment ends exactly
at the first vertex; for length < 3 the path degrades to straight segments
between the points, closed. -/
theorem smoothClosedPath_closed (points : List Point) (hne : points ≠ []) :
    (smoothClosedPath points).getLast? = some PathCmd.closePath ∧
    finalPoint (smoothClosedPath points) = points.headD (0, 0) ∧
    (3 ≤ points.length →
      lastSegEnd (smoothClosedPath points) = some (points.headD (0, 0))) ∧
    (points.length < 3 →
      smoothClosedPath points =
        PathCmd.moveTo (points.headD (0, 0)) ::
          (points.tail.map PathCmd.lineTo ++ [PathCmd.closePath])) := by
  rcases points with _ | ⟨a, rest⟩
  · exact absurd rfl hne
  rcases rest with _ | ⟨b, rest2⟩
  · refine ⟨?_, ?_, ?_, ?_⟩ <;>
      simp [smoothClosedPath, finalPoint, stepCmd, lastSegEnd, segEnd,
        List.enum, List.enumFrom]
  rcases rest2 with _ | ⟨c, rest3⟩
  · refine ⟨?_, ?_, ?_, ?_⟩ <;>
      simp [smoothClosedPath, finalPoint, stepCmd, lastSegEnd, segEnd,
        List.enum, List.enumFrom]
  · -- length ≥ 3
    have hn3 : ¬ (a :: b :: c :: rest3).length < 3 := by
      simp only [List.length_cons]
      omega
    have hform : smoothClosedPath (a :: b :: c :: rest3) =
        PathCmd.moveTo ((a :: b :: c :: rest3).getD 0 (0, 0)) ::
          ((List.range (a :: b :: c :: rest3).length).map
              (smoothSeg (a :: b :: c :: rest3))
            ++ [PathCmd.closePath]) := by
      simp only [smoothClosedPath]
      rw [if_neg hn3]
    have hgd0 : (a :: b :: c :: rest3).getD 0 (0, 0) = a := rfl
    have hhead : (a :: b :: c :: rest3).headD ((0 : ℚ), (0 : ℚ)) = a := rfl
    have hnz : (a :: b :: c :: rest3).length = rest3.length + 3 := by
      simp only [List.length_cons]
    refine ⟨?_, ?_, ?_, ?_⟩
    · rw [hform, ← List.cons_append, List.getLast?_concat]
    · rw [hform, hgd0, hhead]
      unfold finalPoint
      rw [← List.cons_append, List.foldl_append, List.foldl_cons]
      have hmid : ∀ c' ∈ (List.range (a :: b :: c :: rest3).length).map
          (smoothSeg (a :: b :: c :: rest3)), ∀ p, c' ≠ PathCmd.moveTo p := by
        intro c' hc' p
        rcases List.mem_map.mp hc' with ⟨i, _, rfl⟩
        exact smoothSeg_ne_moveTo _ i p
      simp only [List.foldl_cons, List.foldl_nil, stepCmd]
      rw [foldl_stepCmd_subStart
        ((List.range (a :: b :: c :: rest3).length).map (smoothSeg (a :: b :: c :: rest3)))
        ⟨a, a⟩ hmid]
    · intro _
      unfold lastSegEnd
      rw [hform, hgd0, hhead]
      have hfm : List.filterMap segEnd
          (PathCmd.moveTo a ::
            ((List.range (a :: b :: c :: rest3).length).map (smoothSeg (a :: b :: c :: rest3))
              ++ [PathCmd.closePath])) =
          (List.range (a :: b :: c :: rest3).length).map
            (fun i => (a :: b :: c :: rest3).getD
              ((i + 1) % (a :: b :: c :: rest3).length) (0, 0)) := by
        simp only [List.filterMap_cons, segEnd, List.filterMap_append, List.filterMap_nil,
          List.append_nil, List.filterMap_map]
        exact filterMap_eq_map_of_all_some _ _ _ (fun i _ => smoothSeg_segEnd _ i)
      rw [hfm, getLast?_map_range _ _ (by simp)]
      have hmod : ((a :: b :: c :: rest3).length - 1 + 1) % (a :: b :: c :: rest3).length
          = 0 := by
        have he : (a :: b :: c :: rest3).length - 1 + 1 = (a :: b :: c :: rest3).length := by
          simp only [List.length_cons]
          omega
        rw [he, Nat.mod_self]
      rw [hmod]
      rfl
    · intro hlt
      exact absurd hlt hn3

/-- Witness for C8 at a concrete triangle. -/
theorem smoothClosedPath_closed_witness :
    (smoothClosedPath [(0, 0), (4, 0), (4, 4)]).getLast? = some PathCmd.closePath ∧
    finalPoint (smoothClosedPath [(0, 0), (4, 0), (4, 4)]) = (0, 0) ∧
    lastSegEnd (smoothClosedPath [(0, 0), (4, 0), (4, 4)]) = some (0, 0) := by
  have h := smoothClosedPath_closed [(0, 0), (4, 0), (4, 4)] (by decide)
  exact ⟨h.1, h.2.1, h.2.2.1 (by decide)⟩

/- ## C4 — degenerate-drag guard -/

/-- C4: releasing a drawing gesture whose normalized drag rectangle has both
width < 2 and height < 2 creates no hotspot — the hotspot list is exactly
what it was; if width ≥ 2 or height ≥ 2, exactly one new hotspot is
appended. -/
theorem onDrawUp_guard (st : ShapeType) (nid : String) (sx sy px py : ℝ)
    (hs : List HotspotR) :
    (max sx (clamp100R px) - min sx (clamp100R px) < 2 ∧
     max sy (clamp100R py) - min sy (clamp100R py) < 2 →
      onDrawUp st nid sx sy px py hs = hs) ∧
    (2 ≤ max sx (clamp100R px) - min sx (clamp100R px) ∨
     2 ≤ max sy (clamp100R py) - min sy (clamp100R py) →
      ∃ nh : HotspotR, onDrawUp st nid sx sy px py hs = hs ++ [nh]) := by
  constructor
  · intro h
    simp only [onDrawUp]
    rw [if_pos h]
  · intro h
    have hneg : ¬ (max sx (clamp100R px) - min sx (clamp100R px) < 2 ∧
        max sy (clamp100R py) - min sy (clamp100R py) < 2) := by
      rcases h with h | h
      · exact fun hc => absurd hc.1 (not_lt.mpr h)
      · exact fun hc => absurd hc.2 (not_lt.mpr h)
    simp only [onDrawUp]
    rw [if_neg hneg]
    exact ⟨_, rfl⟩

/-- Witness for C4: an 11×11-to-10×10 drag (extents 1×1) is discarded, a
drag with extent 30 appends exactly one hotspot. -/
theorem onDrawUp_guard_witness :
    onDrawUp ShapeType.rect "new" 10 10 11 11 [] = [] ∧
    ∃ nh : HotspotR, onDrawUp ShapeType.rect "new" 10 10 40 40 [] = [] ++ [nh] := by
  constructor
  · refine (onDrawUp_guard ShapeType.rect "new" 10 10 11 11 []).1 ⟨?_, ?_⟩ <;>
    · have hc : clamp100R 11 = 11 := by
        unfold clamp100R
        rw [min_eq_right (by norm_num : (11 : ℝ) ≤ 100),
          max_eq_right (by norm_num : (0 : ℝ) ≤ 11)]
      rw [hc, max_eq_right (by norm_num : (10 : ℝ) ≤ 11),
        min_eq_left (by norm_num : (10 : ℝ) ≤ 11)]
      norm_num
  · refine (onDrawUp_guard ShapeType.rect "new" 10 10 40 40 []).2 (Or.inl ?_)
    have hc : clamp100R 40 = 40 := by
      unfold clamp100R
      rw [min_eq_right (by norm_num : (40 : ℝ) ≤ 100),
        max_eq_right (by norm_num : (0 : ℝ) ≤ 40)]
    rw [hc, max_eq_right (by norm_num : (10 : ℝ) ≤ 40),
      min_eq_left (by norm_num : (10 : ℝ) ≤ 40)]
    norm_num

/- ## C3 — coordinate bounds -/

/-- C3 (counterexample): the whole-shape translation drag applies an
unclamped pointer delta, so a hotspot whose vertices are all in bounds can
be translated to a vertex list with a coordinate outside `[0, 100]`. -/
theorem translateShape_escapes_bounds :
    (translateShapePoints [(0, 0), (10, 0), (10, 10), (0, 10)] (-5) 0).headD (0, 0)
      = (-5, 0) ∧
    decide (pointInB ((-5 : ℚ), 0)) = false := by
  constructor
  · norm_num [translateShapePoints]
  · exact decide_eq_false (by norm_num [pointInB, inB])

/-- C3 (amended): vertex drags (which clamp) and the rectangle, triangle and
ellipse creation seeds (applied to in-bounds drag corners) keep every
coordinate in `[0, 100]`; the whole-shape translation is excluded. -/
theorem editOps_preserve_bounds :
    (∀ (pts : List Point) (idx : ℕ) (nx ny : ℚ),
      (∀ p ∈ pts, pointInB p) → ∀ p ∈ onHandleMove pts idx nx ny, pointInB p) ∧
    (∀ sx sy ex ey : ℝ, inBR sx → inBR sy → inBR ex → inBR ey →
      (∀ p ∈ dragRectSeed sx sy ex ey, pointInBR p) ∧
      (∀ p ∈ dragTriangleSeed sx sy ex ey, pointInBR p) ∧
      (∀ p ∈ dragEllipseSeed sx sy ex ey, pointInBR p)) := by
  constructor
  · intro pts idx nx ny hb p hp
    rcases List.mem_or_eq_of_mem_set hp with h | h
    · exact hb p h
    · subst h
      exact ⟨clamp100_inB nx, clamp100_inB ny⟩
  · intro sx sy ex ey hsx hsy hex hey
    have hminx := inBR_min hsx hex
    have hminy := inBR_min hsy hey
    have hmaxx := inBR_max hsx hex
    have hmaxy := inBR_max hsy hey
    have hlex : min sx ex ≤ max sx ex := (min_le_left _ _).trans (le_max_left _ _)
    have hley : min sy ey ≤ max sy ey := (min_le_left _ _).trans (le_max_left _ _)
    refine ⟨?_, ?_, ?_⟩
    · intro p hp
      simp only [dragRectSeed, List.mem_cons, List.not_mem_nil, or_false] at hp
      rcases hp with rfl | rfl | rfl | rfl
      exacts [⟨hminx, hminy⟩, ⟨hmaxx, hminy⟩, ⟨hmaxx, hmaxy⟩, ⟨hminx, hmaxy⟩]
    · intro p hp
      simp only [dragTriangleSeed, List.mem_cons, List.not_mem_nil, or_false] at hp
      have hmid : inBR (min sx ex + (max sx ex - min sx ex) / 2) := by
        constructor
        · have h0 := hminx.1
          linarith
        · have h1 := hmaxx.2
          linarith
      rcases hp with rfl | rfl | rfl
      exacts [⟨hmid, hminy⟩, ⟨hminx, hmaxy⟩, ⟨hmaxx, hmaxy⟩]
    · intro p hp
      simp only [dragEllipseSeed, List.mem_map, List.mem_range] at hp
      obtain ⟨i, _, rfl⟩ := hp
      have hrx : (0 : ℝ) ≤ (max sx ex - min sx ex) / 2 := by linarith
      have hry : (0 : ℝ) ≤ (max sy ey - min sy ey) / 2 := by linarith
      have hc1 := Real.cos_le_one ((2 * Real.pi * (i : ℝ)) / 8)
      have hc2 := Real.neg_one_le_cos ((2 * Real.pi * (i : ℝ)) / 8)
      have hs1 := Real.sin_le_one ((2 * Real.pi * (i : ℝ)) / 8)
      have hs2 := Real.neg_one_le_sin ((2 * Real.pi * (i : ℝ)) / 8)
      have hxl := mul_le_mul_of_nonneg_left hc2 hrx
      have hxu := mul_le_mul_of_nonneg_left hc1 hrx
      have hyl := mul_le_mul_of_nonneg_left hs2 hry
      have hyu := mul_le_mul_of_nonneg_left hs1 hry
      have h0x := hminx.1
      have h1x := hmaxx.2
      have h0y := hminy.1
      have h1y := hmaxy.2
      refine ⟨⟨?_, ?_⟩, ⟨?_, ?_⟩⟩ <;> nlinarith

/-- Witness for C3 (amended): a vertex dragged far outside is clamped to
the in-bounds point `(100, 0)`; the rectangle seed of the drag
`(10,10)→(40,20)` contains the in-bounds corner `(40, 10)`. -/
theorem editOps_preserve_bounds_witness :
    pointInB ((100 : ℚ), 0) ∧ pointInBR ((40 : ℝ), 10) := by
  constructor
  · exact editOps_preserve_bounds.1 [(1, 2)] 0 200 (-7) (by decide) (100, 0) (by decide)
  · refine (editOps_preserve_bounds.2 10 10 40 20
      (by norm_num [inBR]) (by norm_num [inBR]) (by norm_num [inBR])
      (by norm_num [inBR])).1 (40, 10) ?_
    have e1 : min (10 : ℝ) 40 = 10 := min_eq_left (by norm_num)
    have e2 : min (10 : ℝ) 20 = 10 := min_eq_left (by norm_num)
    have e3 : max (10 : ℝ) 40 = 40 := max_eq_right (by norm_num)
    have e4 : max (10 : ℝ) 20 = 20 := max_eq_right (by norm_num)
    simp [dragRectSeed, e1, e2, e3, e4]

/- ## C10 — the `.md` fallback on navigation -/

/-- C10: a destination path that resolves to nothing and does not already
end in `.md` is retried with `.md` appended; if that names a file it is
opened; only when the retry also fails is the path reported as not found. -/
theorem showZoneFiles_md_fallback (vault : String → Option VEntry)
    (hname hpath : String)
    (htrim : jsTrim hpath ≠ "")
    (hhash : jsContainsHash hpath = false)
    (hmiss : vault hpath = none)
    (hmd : jsEndsWith hpath ".md" = false) :
    (vault (hpath ++ ".md") = some VEntry.file →
      showZoneFiles vault hname hpath = NavResult.openedFile (hpath ++ ".md") "") ∧
    (vault (hpath ++ ".md") = none →
      showZoneFiles vault hname hpath = NavResult.pathNotFound hpath) := by
  constructor <;> intro hv <;>
    simp [showZoneFiles, htrim, hhash, hmiss, hmd, hv]

/-- Witness for C10: in a vault containing only the file `notes/desk.md`,
the destination `notes/desk` opens `notes/desk.md`. -/
theorem showZoneFiles_md_fallback_witness :
    showZoneFiles mdVault "Desk" "notes/desk" =
      NavResult.openedFile "notes/desk.md" "" :=
  (showZoneFiles_md_fallback mdVault "Desk" "notes/desk" (by decide) (by decide)
    (by decide) (by decide)).1 (by decide)

end ImageFolder
